import Mathlib

/-
Shallow embedding of the routing core of the node-fundamentals-course
repository:

* `buildRoutePath`    — src/src/utils/build-route-path.js
* `extractQueryParams`— src/src/utils/extract-query-params.js
* the dispatcher      — src/src/server.js (routes.find + 404 fallback)

JavaScript strings are modelled as lists of characters (`Str`).  The
RegExp produced by `buildRoutePath` is modelled structurally: the
template is tokenised exactly as the replaceAll over the pattern
colon-followed-by-letters does, and the resulting sequence of literal
characters and named capture groups — together with the implicit
anchors and the trailing optional query group — is interpreted by a
greedy backtracking matcher with the same semantics JavaScript gives
the produced regular expression on the tame fragment (literal
characters that are not regex metacharacters, plus the wildcard dot).
-/

abbrev Str := List Char

/-- ASCII letter, the character class of the parameter-name pattern in
build-route-path.js (colon followed by one or more letters). -/
def isAlphaChar (c : Char) : Bool :=
  ('a' ≤ c && c ≤ 'z') || ('A' ≤ c && c ≤ 'Z')

/-- The value character class of the compiled pattern: lowercase
letters, digits, hyphen, underscore. -/
def allowedChar (c : Char) : Bool :=
  ('a' ≤ c && c ≤ 'z') || ('0' ≤ c && c ≤ '9') || c = '-' || c = '_'

/-- JavaScript line terminators, which the dot of a regular expression
without the dotAll flag does not match. -/
def isLineTerm (c : Char) : Bool :=
  c = '\n' || c = '\r' || c = '\u2028' || c = '\u2029'

/-- One token of a compiled route pattern: a literal character of the
template, or a named capture group produced from a colon parameter. -/
inductive RouteTok where
  | lit (c : Char)
  | param (name : Str)
deriving DecidableEq, Repr

/-- Fuel-indexed tokeniser implementing the replaceAll of the pattern
colon-followed-by-letters (global, greedy) in build-route-path.js:
each maximal colon-letters run becomes a named group token, every
other character stays literal.  Fuel at least the length of the input
makes the fuel bound unreachable. -/
def tokenizeF : Nat → Str → List RouteTok
  | _, [] => []
  | 0, _ => []
  | fuel+1, ':' :: rest =>
    let name := rest.takeWhile isAlphaChar
    if name = [] then RouteTok.lit ':' :: tokenizeF fuel rest
    else RouteTok.param name :: tokenizeF fuel (rest.drop name.length)
  | fuel+1, c :: rest => RouteTok.lit c :: tokenizeF fuel rest

/-- Tokenise a route template. -/
def tokenize (s : Str) : List RouteTok := tokenizeF s.length s

/-- The parameter names of a compiled pattern, in template order. -/
def paramNames (toks : List RouteTok) : List Str :=
  toks.filterMap fun t => match t with
    | RouteTok.lit _ => none
    | RouteTok.param n => some n

/-- `buildRoutePath` (build-route-path.js).  The function interpolates
the token sequence into the regex source
startAnchor ++ tokens ++ optional query group ++ endAnchor and calls
new RegExp on it; new RegExp throws a SyntaxError when two named
capture groups share a name, which happens exactly when a parameter
name is duplicated or collides with the appended group named query.
The throw is modelled as `Except.error`. -/
def buildRoutePath (path : String) : Except String (List RouteTok) :=
  let toks := tokenize path.data
  if (paramNames toks ++ ["query".data]).Nodup then Except.ok toks
  else Except.error "SyntaxError: duplicate capture group name"

/-- A successful match of a compiled pattern: the captures of the
named parameter groups in template order, and the capture of the
trailing group named query (`none` when that optional group did not
participate, i.e. undefined). -/
structure MatchResult where
  params : List (Str × Str)
  query : Option Str
deriving DecidableEq, Repr

/-- Semantics of a literal regex character: the dot matches any
character except a line terminator, any other (non-metacharacter)
literal matches itself. -/
def litMatch (c d : Char) : Bool :=
  if c = '.' then !isLineTerm d else c = d

/-- Matching of the trailing part of the compiled pattern, the
optional group question-mark-then-dot-star followed by the end anchor:
either the rest of the path is empty (group unmatched, query
undefined) or it is a question mark followed by line-terminator-free
text (group captures the whole rest). -/
def matchTail : Str → Option (Option Str)
  | [] => some none
  | c :: rest =>
    if c = '?' then
      if rest.all (fun d => !isLineTerm d) then some (some (c :: rest)) else none
    else none

/-- Greedy backtracking loop of a one-or-more character-class group:
try capture lengths from `k` down to 1, returning the first length
whose continuation matches — exactly the order in which a JavaScript
regex engine explores a greedy plus. -/
def tryLens (n : Str) (s : Str) (cont : Str → Option MatchResult) : Nat → Option MatchResult
  | 0 => none
  | k+1 =>
    match cont (s.drop (k+1)) with
    | some r => some ⟨(n, s.take (k+1)) :: r.params, r.query⟩
    | none => tryLens n s cont k

/-- The matcher for a compiled pattern against a whole path (the
pattern is anchored at both ends by construction).  A named group
captures greedily a non-empty run of allowed characters; its longest
viable capture is bounded by the run of allowed characters starting at
the current position. -/
def matchToks : List RouteTok → Str → Option MatchResult
  | [], s => (matchTail s).map (fun q => ⟨[], q⟩)
  | RouteTok.lit _ :: _, [] => none
  | RouteTok.lit c :: toks, d :: s =>
    if litMatch c d then matchToks toks s else none
  | RouteTok.param n :: toks, s =>
    tryLens n s (fun s2 => matchToks toks s2) ((s.takeWhile allowedChar).length)

/-- JavaScript String.prototype.split with a one-character separator:
the result is never empty, an empty input yields a list holding the
empty string, and adjacent separators yield empty fields. -/
def splitSep (sep : Char) : Str → List Str
  | [] => [[]]
  | c :: rest =>
    match splitSep sep rest with
    | [] => [[]]
    | seg :: segs => if c = sep then [] :: seg :: segs else (c :: seg) :: segs

/-- JavaScript property assignment obj with key set to value on a
plain object: an existing key keeps its position and gets the new
value, a new key is appended.  The maps built here never hold
duplicate keys, so updating the first occurrence is exact. -/
def objSet : List (Str × Option Str) → Str → Option Str → List (Str × Option Str)
  | [], k, v => [(k, v)]
  | (k2, v2) :: m, k, v =>
    if k2 = k then (k, v) :: m else (k2, v2) :: objSet m k v

/-- Property lookup: `some v` when the key is present with value `v`
(where `v = none` models the value undefined), `none` when absent. -/
def objGet : List (Str × Option Str) → Str → Option (Option Str)
  | [], _ => none
  | (k2, v2) :: m, k => if k2 = k then some v2 else objGet m k

/-- The destructured key of a query segment: the text before the
first equals sign (the whole segment when there is none), i.e. the
first element of the split. -/
def segKey (seg : Str) : Str := (splitSep '=' seg).headD []

/-- The destructured value of a query segment: the second element of
the split on equals signs — the text strictly between the first and
the second equals sign — or undefined (`none`) when the segment has
no equals sign at all. -/
def segVal (seg : Str) : Option Str := (splitSep '=' seg)[1]?

/-- `extractQueryParams` (extract-query-params.js) on a character
list: drop the leading question mark (substr 1), split on ampersands,
and reduce each segment into the accumulator object via the
destructuring of its split on equals signs. -/
def extractQP (query : Str) : List (Str × Option Str) :=
  (splitSep '&' (query.drop 1)).foldl
    (fun queryParams param => objSet queryParams (segKey param) (segVal param)) []

/-- `extractQueryParams` on a Lean string. -/
def extractQueryParams (query : String) : List (Str × Option Str) :=
  extractQP query.data

/-- Specification-side lookup for the amended duplicate-key claim:
the value of the last segment whose key is `k`, searching later
segments first. -/
def lastValue (segs : List Str) (k : Str) : Option (Option Str) :=
  match segs with
  | [] => none
  | seg :: rest =>
    match lastValue rest k with
    | some v => some v
    | none => if segKey seg = k then some (segVal seg) else none

/-- A registered route of routes.js: an HTTP method, the compiled
pattern produced by buildRoutePath, and its handler (abstracted to an
identifier — handlers are opaque callbacks to the dispatcher). -/
structure Route where
  method : Str
  path : List RouteTok
  handler : Nat
deriving DecidableEq, Repr

/-- routes.find of server.js: the first registered route whose method
equals the request method and whose compiled pattern matches the
url. -/
def findRoute (routes : List Route) (method url : Str) : Option Route :=
  routes.find? (fun r => r.method == method && (matchToks r.path url).isSome)

/-- The observable outcome of one request in server.js: either the
selected route's handler is invoked with the extracted route
parameters and decoded query parameters, or the 404 Not Found
response is written. -/
inductive ServerOutcome where
  | handled (handler : Nat) (params : List (Str × Str)) (query : List (Str × Option Str))
  | notFound
deriving DecidableEq, Repr

/-- The request pipeline of server.js: find the first matching route;
on a match re-run the pattern on the url, split the named captures
into the query capture and the route parameters, decode the query
string when the capture is defined and non-empty (the JavaScript
truthiness test), and invoke the handler; otherwise write 404. -/
def handleRequest (routes : List Route) (method url : Str) : ServerOutcome :=
  match findRoute routes method url with
  | some route =>
    match matchToks route.path url with
    | some res =>
      ServerOutcome.handled route.handler res.params
        (match res.query with
         | some q => if q = [] then [] else extractQP q
         | none => [])
    | none => ServerOutcome.notFound
  | none => ServerOutcome.notFound

/-- Substituting values for the named segments of a template, in
order: literal characters stay, each named segment is replaced by the
next value.  The spec phrase: the path obtained by substituting, at
each named segment, a string. -/
def instantiate : List RouteTok → List Str → Str
  | [], _ => []
  | RouteTok.lit c :: toks, vs => c :: instantiate toks vs
  | RouteTok.param _ :: toks, [] => instantiate toks []
  | RouteTok.param _ :: toks, v :: vs => v ++ instantiate toks vs

/-- Characters that carry syntax in a JavaScript regular expression
source.  build-route-path.js interpolates the template into the regex
source without escaping, so templates holding such characters compile
to patterns with a different shape; the embedding models literals
outside this set, plus the dot as a wildcard. -/
def regexSpecialChar (c : Char) : Bool :=
  c ∈ ['\\', '^', '$', '.', '|', '?', '*', '+', '(', ')', '[', ']',
    Char.ofNat 123, Char.ofNat 125]

/-- A token the embedding models with the exact JavaScript RegExp
semantics: a named group, a wildcard dot, or a plain literal. -/
def tameTok : RouteTok → Bool
  | RouteTok.lit c => !regexSpecialChar c || c = '.'
  | RouteTok.param _ => true

/-- All tokens of the compiled pattern are modelled exactly. -/
def tame (toks : List RouteTok) : Bool := toks.all tameTok

/-- Every named segment is followed by the end of the template or by
a literal character outside the allowed value character class, so the
greedy capture of one segment can never absorb text meant for a
neighbouring segment or separator. -/
def delimited : List RouteTok → Bool
  | [] => true
  | RouteTok.param _ :: [] => true
  | RouteTok.param _ :: RouteTok.lit c :: toks =>
    !allowedChar c && delimited (RouteTok.lit c :: toks)
  | RouteTok.param _ :: RouteTok.param _ :: _ => false
  | RouteTok.lit _ :: toks => delimited toks

/-- The literal text of a pattern, i.e. the template with the named
segments erased; for a template with zero named segments this is the
template itself. -/
def litsOf (toks : List RouteTok) : Str :=
  toks.filterMap fun t => match t with
    | RouteTok.lit c => some c
    | RouteTok.param _ => none

/-- Specification-level reading of one whole-path match of a compiled
pattern: the path decomposes, from its first character to its last,
into the pattern's literals (a dot literal standing for any
non-line-terminator character), one non-empty run of allowed
characters per named segment — recorded as that segment's capture —
and an optional trailing query capture opened by a question mark.
Both anchors are built in: the relation consumes the entire path. -/
inductive MatchSpec : List RouteTok → Str → List (Str × Str) → Option Str → Prop where
  | nil : MatchSpec [] [] [] none
  | tail (rest : Str) (h : rest.all (fun d => !isLineTerm d) = true) :
      MatchSpec [] ('?' :: rest) [] (some ('?' :: rest))
  | lit (c d : Char) (toks : List RouteTok) (s : Str) (ps : List (Str × Str)) (q : Option Str)
      (hc : litMatch c d = true) (h : MatchSpec toks s ps q) :
      MatchSpec (RouteTok.lit c :: toks) (d :: s) ps q
  | param (n v : Str) (toks : List RouteTok) (s : Str) (ps : List (Str × Str)) (q : Option Str)
      (hne : v ≠ []) (hall : v.all allowedChar = true) (h : MatchSpec toks s ps q) :
      MatchSpec (RouteTok.param n :: toks) (v ++ s) ((n, v) :: ps) q

/-!
Templates whose literal characters include a top-level vertical bar
compile, under the unescaped interpolation of build-route-path.js, to
a regex source with alternation: only the first alternative carries
the start anchor and only the last alternative carries the appended
query group and the end anchor.  The following definitions model
String.prototype.match for such patterns (valid whenever the other
literal characters are tame): positions are tried left to right and,
at each position, the alternatives in source order.
-/

/-- Split a compiled token sequence into its top-level alternatives
at every vertical-bar literal. -/
def splitBars : List RouteTok → List (List RouteTok)
  | [] => [[]]
  | t :: rest =>
    match splitBars rest with
    | [] => [[]]
    | seg :: segs =>
      if t = RouteTok.lit '|' then [] :: seg :: segs else (t :: seg) :: segs

/-- Greedy backtracking loop of a one-or-more character-class group
for prefix matching: like `tryLens`, but the continuation also
returns the unconsumed rest of the input. -/
def tryLensP (n : Str) (s : Str) (cont : Str → Option (List (Str × Str) × Str)) :
    Nat → Option (List (Str × Str) × Str)
  | 0 => none
  | k+1 =>
    match cont (s.drop (k+1)) with
    | some (ps, rest) => some ((n, s.take (k+1)) :: ps, rest)
    | none => tryLensP n s cont k

/-- Match a token sequence against the beginning of the input — the
semantics of an alternative that carries no end anchor: on success
the captures and the unconsumed rest of the input are returned. -/
def matchPrefix : List RouteTok → Str → Option (List (Str × Str) × Str)
  | [], s => some ([], s)
  | RouteTok.lit _ :: _, [] => none
  | RouteTok.lit c :: toks, d :: s =>
    if litMatch c d then matchPrefix toks s else none
  | RouteTok.param n :: toks, s =>
    tryLensP n s (fun s2 => matchPrefix toks s2) ((s.takeWhile allowedChar).length)

/-- One match of an alternation pattern: the index of the matched
alternative, its captures (named groups of the other alternatives do
not participate and are undefined), the query capture, the index in
the path where the match begins, and the matched substring. -/
structure BarMatch where
  alt : Nat
  params : List (Str × Str)
  query : Option Str
  start : Nat
  matched : Str
deriving DecidableEq, Repr

/-- Try the alternatives of a compiled pattern, in source order, at
one start position `p` of the original input: the alternative at
index 0 carries the start anchor, so it is only tried at position 0;
the alternative at index n-1 carries the appended query group and the
end anchor, so it must consume the whole rest of the input (this is
`matchToks`); the alternatives in between carry no anchor at all. -/
def tryAltsFrom (orig : Str) (p : Nat) : List (List RouteTok) → Nat → Nat → Option BarMatch
  | [], _, _ => none
  | alt :: rest, i, n =>
    let attempt : Option BarMatch :=
      if i == 0 && p != 0 then none
      else if i + 1 == n then
        match matchToks alt (orig.drop p) with
        | some r => some ⟨i, r.params, r.query, p, orig.drop p⟩
        | none => none
      else
        match matchPrefix alt (orig.drop p) with
        | some (ps, restStr) =>
          some ⟨i, ps, none, p, (orig.drop p).take ((orig.drop p).length - restStr.length)⟩
        | none => none
    match attempt with
    | some m => some m
    | none => tryAltsFrom orig p rest (i + 1) n

/-- The position loop of exec: starting at position `p`, with
`remaining` further positions to try, return the first match found. -/
def execPos (alts : List (List RouteTok)) (orig : Str) : Nat → Nat → Option BarMatch
  | p, remaining =>
    match tryAltsFrom orig p alts 0 alts.length with
    | some m => some m
    | none =>
      match remaining with
      | 0 => none
      | r + 1 => execPos alts orig (p + 1) r

/-- String.prototype.match of a path against a compiled pattern that
may contain top-level alternation: leftmost match, alternatives in
source order.  For a bar-free template this degenerates to
`matchToks` at position 0, since the single alternative carries both
anchors. -/
def execCompiled (toks : List RouteTok) (s : Str) : Option BarMatch :=
  execPos (splitBars toks) s 0 s.length

/-! Helper lemmas about the query decoder. -/

theorem objGet_objSet (m : List (Str × Option Str)) (k k2 : Str) (v : Option Str) :
    objGet (objSet m k v) k2 = if k = k2 then some v else objGet m k2 := by
  induction m with
  | nil => simp [objSet, objGet]
  | cons p m ih =>
    obtain ⟨k3, v3⟩ := p
    by_cases h3 : k3 = k
    · subst h3
      simp only [objSet, if_pos rfl, objGet]
      by_cases h2 : k3 = k2 <;> simp [h2]
    · simp only [objSet, if_neg h3, objGet]
      by_cases h2 : k3 = k2
      · subst h2
        simp [if_neg (by simpa using Ne.symm h3 : ¬ k = k3)]
      · simp [h2, ih]

theorem objGet_fold (segs : List Str) (acc : List (Str × Option Str)) (k : Str) :
    objGet (segs.foldl (fun m param => objSet m (segKey param) (segVal param)) acc) k =
      match lastValue segs k with
      | some v => some v
      | none => objGet acc k := by
  induction segs generalizing acc with
  | nil => simp [lastValue]
  | cons seg rest ih =>
    simp only [List.foldl_cons, ih, lastValue, objGet_objSet]
    cases h : lastValue rest k with
    | some v => simp
    | none =>
      by_cases hk : segKey seg = k <;> simp [hk]

theorem splitSep_not_mem (sep : Char) (l : Str) (h : sep ∉ l) : splitSep sep l = [l] := by
  induction l with
  | nil => rfl
  | cons c rest ih =>
    have hc : c ≠ sep := fun e => h (e ▸ List.mem_cons_self c rest)
    have hr : sep ∉ rest := fun e => h (List.mem_cons_of_mem c e)
    simp [splitSep, ih hr, hc]

theorem splitSep_append_sep (sep : Char) (l : Str) (h : sep ∉ l) :
    splitSep sep (l ++ [sep]) = [l, []] := by
  induction l with
  | nil => simp [splitSep]
  | cons c rest ih =>
    have hc : c ≠ sep := fun e => h (e ▸ List.mem_cons_self c rest)
    have hr : sep ∉ rest := fun e => h (List.mem_cons_of_mem c e)
    simp [splitSep, ih hr, hc]

/-! Claims about the query-string decoder. -/

/-- Claim C4, counterexample: decoding the empty string does not
yield the empty mapping — the reduce still runs on the single empty
segment produced by split, so the result is a mapping holding the
empty-string key bound to undefined. -/
theorem extractQueryParams_empty_counterexample :
    extractQueryParams "" = [(([] : Str), none)] ∧ extractQueryParams "" ≠ [] :=
  ⟨by decide, by decide⟩

/-- Claim C4, amended: decoding the string question-a-equals-one-amp-b-equals-two
yields exactly the two expected bindings; decoding the empty string
yields the one-entry mapping binding the empty-string key to
undefined (not the empty mapping, which in the full server comes from
the caller's truthiness guard, not from the decoder); decoding a
segment with no equals sign yields a mapping with that key present
and bound to undefined. -/
theorem extractQueryParams_spec_examples :
    extractQueryParams "?a=1&b=2" = [("a".data, some "1".data), ("b".data, some "2".data)] ∧
    extractQueryParams "" = [(([] : Str), none)] ∧
    objGet (extractQueryParams "?x") "x".data = some none :=
  ⟨by decide, by decide, by decide⟩

/-- Claim C5, counterexample: for a segment with two equals signs the
decoder does not keep the entire text after the first equals sign —
split cuts at every equals sign and the destructuring keeps only the
second field, so a is bound to b rather than to b-equals-c. -/
theorem extractQueryParams_second_field_counterexample :
    extractQueryParams "?a=b=c" = [("a".data, some "b".data)] ∧
    "b".data ≠ "b=c".data :=
  ⟨by decide, by decide⟩

/-- Claim C5, amended: for every query string and key, looking the
key up in the decoded mapping returns exactly the value derived from
the last ampersand-separated segment whose first equals-field is that
key — the value being the segment's second equals-field (the text
strictly between the first and second equals sign, undefined when the
segment has no equals sign); in particular later duplicate keys
overwrite earlier ones. -/
theorem extractQueryParams_lookup_last (q : String) (k : Str) :
    objGet (extractQueryParams q) k = lastValue (splitSep '&' (q.data.drop 1)) k := by
  show objGet ((splitSep '&' (q.data.drop 1)).foldl
    (fun queryParams param => objSet queryParams (segKey param) (segVal param)) []) k = _
  rw [objGet_fold]
  cases h : lastValue (splitSep '&' (q.data.drop 1)) k <;> simp [objGet]

/-- Claim C10: a segment of the shape key-equals-nothing binds the
key to the empty string — present with an empty value — while the
same key as a bare segment (no equals sign) is bound to undefined;
the two results differ. -/
theorem extractQP_trailing_equals (k : Str) (h1 : '=' ∉ k) (h2 : '&' ∉ k) :
    objGet (extractQP ('?' :: (k ++ ['=']))) k = some (some []) ∧
    objGet (extractQP ('?' :: k)) k = some none := by
  constructor
  · have hamp : '&' ∉ k ++ ['='] := by
      intro hm
      rcases List.mem_append.mp hm with hm | hm
      · exact h2 hm
      · simp at hm
    show objGet ((splitSep '&' (('?' :: (k ++ ['='])).drop 1)).foldl
      (fun queryParams param => objSet queryParams (segKey param) (segVal param)) []) k = _
    rw [List.drop_one, List.tail_cons, splitSep_not_mem '&' _ hamp]
    simp only [List.foldl_cons, List.foldl_nil]
    rw [show segKey (k ++ ['=']) = k by
          simp [segKey, splitSep_append_sep '=' k h1],
        show segVal (k ++ ['=']) = some [] by
          simp [segVal, splitSep_append_sep '=' k h1]]
    simp [objSet, objGet]
  · show objGet ((splitSep '&' (('?' :: k).drop 1)).foldl
      (fun queryParams param => objSet queryParams (segKey param) (segVal param)) []) k = _
    rw [List.drop_one, List.tail_cons, splitSep_not_mem '&' _ h2]
    simp only [List.foldl_cons, List.foldl_nil]
    rw [show segKey k = k by simp [segKey, splitSep_not_mem '=' k h1],
        show segVal k = none by simp [segVal, splitSep_not_mem '=' k h1]]
    simp [objSet, objGet]

/-- Witness for claim C10 at the key x. -/
theorem extractQP_trailing_equals_witness :
    ('=' ∉ ("x".data : Str)) ∧ ('&' ∉ ("x".data : Str)) ∧
    (objGet (extractQP ('?' :: ("x".data ++ ['=']))) "x".data = some (some []) ∧
     objGet (extractQP ('?' :: "x".data)) "x".data = some none) :=
  ⟨by decide, by decide, extractQP_trailing_equals "x".data (by decide) (by decide)⟩

/-! Claims about compile-time rejection of colliding capture names. -/

/-- Claim C6: a template whose named segments repeat a name makes
buildRoutePath fail, because the regex constructor rejects duplicate
named capture groups; the error therefore surfaces when the route
table is built (routes.js calls buildRoutePath while registering),
not at dispatch time, and no pattern is produced. -/
theorem buildRoutePath_duplicate_param_error (t : String)
    (h : ¬ (paramNames (tokenize t.data)).Nodup) :
    buildRoutePath t = Except.error "SyntaxError: duplicate capture group name" := by
  have hnd : ¬ (paramNames (tokenize t.data) ++ ["query".data]).Nodup :=
    fun hd => h hd.of_append_left
  simp [buildRoutePath, hnd]

/-- Witness for claim C6 at the template slash-a-colon-id-colon-id. -/
theorem buildRoutePath_duplicate_param_error_witness :
    ¬ (paramNames (tokenize "/a/:id/:id".data)).Nodup ∧
    buildRoutePath "/a/:id/:id" = Except.error "SyntaxError: duplicate capture group name" :=
  ⟨by decide, buildRoutePath_duplicate_param_error "/a/:id/:id" (by decide)⟩

/-- Claim C9: the name query is implicitly reserved — a template with
a named segment called query collides with the trailing query-string
group that buildRoutePath always appends, so the regex constructor
rejects the pattern and no compiled pattern with a parameter named
query is ever produced. -/
theorem buildRoutePath_query_name_error (t : String)
    (h : "query".data ∈ paramNames (tokenize t.data)) :
    buildRoutePath t = Except.error "SyntaxError: duplicate capture group name" := by
  have hnd : ¬ (paramNames (tokenize t.data) ++ ["query".data]).Nodup := by
    intro hd
    rw [List.nodup_append] at hd
    exact hd.2.2 h (by simp)
  simp [buildRoutePath, hnd]

/-- Witness for claim C9 at the template slash-users-colon-query. -/
theorem buildRoutePath_query_name_error_witness :
    "query".data ∈ paramNames (tokenize "/users/:query".data) ∧
    buildRoutePath "/users/:query" = Except.error "SyntaxError: duplicate capture group name" :=
  ⟨by decide, buildRoutePath_query_name_error "/users/:query" (by decide)⟩

/-! Claims about the dispatcher. -/

/-- Claim C3: when the route at position i has the request method and
its pattern matches the url, and no earlier-registered route does,
the dispatcher selects exactly that route and invokes its handler
with the extracted parameters and decoded query — first registered
wins, so a catch-all registered before a more specific route is the
one selected. -/
theorem find?_eq_get_of_first {α : Type} (p : α → Bool) (l : List α) (i : Nat)
    (hi : i < l.length) (hp : p (l.get ⟨i, hi⟩) = true)
    (hfirst : ∀ j (hj : j < i), p (l.get ⟨j, Nat.lt_trans hj hi⟩) = false) :
    List.find? p l = some (l.get ⟨i, hi⟩) := by
  induction l generalizing i with
  | nil => simp at hi
  | cons a l ih =>
    cases i with
    | zero =>
      simp only [List.get] at hp
      simp [List.find?_cons, hp]
    | succ n =>
      have h0 : p a = false := by simpa using hfirst 0 (Nat.succ_pos n)
      simp only [List.get] at hp ⊢
      rw [List.find?_cons, h0]
      exact ih n (Nat.lt_of_succ_lt_succ hi) hp
        (fun j hj => by simpa using hfirst (j + 1) (Nat.succ_lt_succ hj))

theorem findRoute_first_registered (routes : List Route) (method url : Str)
    (i : Nat) (hi : i < routes.length)
    (hm : (routes.get ⟨i, hi⟩).method = method)
    (hp : (matchToks (routes.get ⟨i, hi⟩).path url).isSome = true)
    (hfirst : ∀ j (hj : j < i),
      ¬((routes.get ⟨j, Nat.lt_trans hj hi⟩).method = method ∧
        (matchToks (routes.get ⟨j, Nat.lt_trans hj hi⟩).path url).isSome = true)) :
    findRoute routes method url = some (routes.get ⟨i, hi⟩) ∧
    ∃ res, matchToks (routes.get ⟨i, hi⟩).path url = some res ∧
      handleRequest routes method url =
        ServerOutcome.handled (routes.get ⟨i, hi⟩).handler res.params
          (match res.query with
           | some q => if q = [] then [] else extractQP q
           | none => []) := by
  have hfind : findRoute routes method url = some (routes.get ⟨i, hi⟩) := by
    refine find?_eq_get_of_first _ routes i hi ?_ ?_
    · simp only [Bool.and_eq_true, beq_iff_eq]
      exact ⟨hm, hp⟩
    · intro j hj
      cases hb : ((routes.get ⟨j, Nat.lt_trans hj hi⟩).method == method &&
          (matchToks (routes.get ⟨j, Nat.lt_trans hj hi⟩).path url).isSome) with
      | false => rfl
      | true =>
        rw [Bool.and_eq_true, beq_iff_eq] at hb
        exact absurd hb (hfirst j hj)
  obtain ⟨res, hres⟩ := Option.isSome_iff_exists.mp hp
  refine ⟨hfind, res, hres, ?_⟩
  unfold handleRequest
  rw [hfind]
  simp only [hres]

/-- Demonstration route table: a catch-all route registered before a
more specific literal route, both for the method GET. -/
def demoRoutes : List Route :=
  [⟨"GET".data, tokenize "/:any".data, 0⟩,
   ⟨"GET".data, tokenize "/users".data, 1⟩]

/-- Witness for claim C3: dispatching GET /users against the
demonstration table selects the catch-all registered first. -/
theorem findRoute_first_registered_witness :
    ((demoRoutes.get ⟨0, by decide⟩).method = "GET".data ∧
     (matchToks (demoRoutes.get ⟨0, by decide⟩).path "/users".data).isSome = true) ∧
    (findRoute demoRoutes "GET".data "/users".data = some (demoRoutes.get ⟨0, by decide⟩) ∧
     ∃ res, matchToks (demoRoutes.get ⟨0, by decide⟩).path "/users".data = some res ∧
       handleRequest demoRoutes "GET".data "/users".data =
         ServerOutcome.handled (demoRoutes.get ⟨0, by decide⟩).handler res.params
           (match res.query with
            | some q => if q = [] then [] else extractQP q
            | none => [])) :=
  ⟨⟨by decide, by decide⟩,
   findRoute_first_registered demoRoutes "GET".data "/users".data 0 (by decide)
     (by decide) (by decide) (fun j hj => absurd hj (Nat.not_lt_zero j))⟩

/-- Claim C7: when no registered route has the request method
together with a pattern matching the url, the dispatcher returns the
no-match signal and the server writes the 404 response; dispatch is a
total function — an unregistered method-path combination never
produces an exception, only the notFound outcome. -/
theorem handleRequest_no_match (routes : List Route) (method url : Str)
    (h : ∀ r ∈ routes, ¬(r.method = method ∧ (matchToks r.path url).isSome = true)) :
    findRoute routes method url = none ∧
    handleRequest routes method url = ServerOutcome.notFound := by
  have hfind : findRoute routes method url = none := by
    show List.find? _ routes = none
    rw [List.find?_eq_none]
    intro r hr
    simp only [Bool.and_eq_true, beq_iff_eq]
    exact h r hr
  exact ⟨hfind, by unfold handleRequest; rw [hfind]⟩

/-- Witness for claim C7: POST /users matches no route of the
demonstration table (both routes are GET), so dispatch yields 404. -/
theorem handleRequest_no_match_witness :
    (∀ r ∈ demoRoutes, ¬(r.method = "POST".data ∧ (matchToks r.path "/users".data).isSome = true)) ∧
    (findRoute demoRoutes "POST".data "/users".data = none ∧
     handleRequest demoRoutes "POST".data "/users".data = ServerOutcome.notFound) :=
  ⟨by decide, handleRequest_no_match demoRoutes "POST".data "/users".data (by decide)⟩

/-! Helper lemmas about the matcher. -/

theorem litMatch_self (c : Char) : litMatch c c = true := by
  unfold litMatch
  by_cases h : c = '.'
  · subst h; decide
  · simp [h]

theorem tryLens_some {n s : Str} {cont : Str → Option MatchResult} :
    ∀ {k : Nat} {res : MatchResult}, tryLens n s cont k = some res →
      ∃ len r, 1 ≤ len ∧ len ≤ k ∧ cont (s.drop len) = some r ∧
        res = ⟨(n, s.take len) :: r.params, r.query⟩ := by
  intro k
  induction k with
  | zero => intro res h; simp [tryLens] at h
  | succ k ih =>
    intro res h
    rw [tryLens] at h
    cases hc : cont (s.drop (k + 1)) with
    | some r =>
      rw [hc] at h
      refine ⟨k + 1, r, Nat.succ_le_succ (Nat.zero_le k), Nat.le_refl _, hc, ?_⟩
      exact (Option.some.inj h).symm
    | none =>
      rw [hc] at h
      obtain ⟨len, r, h1, h2, h3, h4⟩ := ih h
      exact ⟨len, r, h1, Nat.le_succ_of_le h2, h3, h4⟩

theorem all_take_of_le_takeWhile {s : Str} {p : Char → Bool} {len : Nat}
    (hlen : len ≤ (s.takeWhile p).length) : (s.take len).all p = true := by
  have hpref : s.take len = (s.takeWhile p).take len := by
    conv_lhs => rw [← List.takeWhile_append_dropWhile (p := p) (l := s)]
    rw [List.take_append_of_le_length hlen]
  rw [hpref]
  rw [List.all_eq_true]
  intro c hc
  have hmem : c ∈ s.takeWhile p := List.mem_of_mem_take hc
  have := List.all_takeWhile (l := s) (p := p)
  rw [List.all_eq_true] at this
  exact this c hmem

theorem take_ne_nil_of_one_le {s : Str} {len : Nat} (h1 : 1 ≤ len)
    (h2 : len ≤ s.length) : s.take len ≠ [] := by
  have : (s.take len).length = len := by
    rw [List.length_take]
    omega
  intro hnil
  rw [hnil] at this
  simp at this
  omega

theorem matchToks_spec : ∀ (toks : List RouteTok) (s : Str) (res : MatchResult),
    matchToks toks s = some res → MatchSpec toks s res.params res.query := by
  intro toks
  induction toks with
  | nil =>
    intro s res h
    rw [matchToks] at h
    cases s with
    | nil =>
      rw [matchTail] at h
      simp at h
      rw [← h]
      exact MatchSpec.nil
    | cons c s2 =>
      rw [matchTail] at h
      by_cases hq : c = '?'
      · rw [if_pos hq] at h
        by_cases hall : (s2.all fun d => !isLineTerm d) = true
        · rw [if_pos hall] at h
          simp at h
          rw [← h]
          subst hq
          exact MatchSpec.tail s2 hall
        · rw [if_neg hall] at h
          simp at h
      · rw [if_neg hq] at h
        simp at h
  | cons t toks ih =>
    cases t with
    | lit c =>
      intro s res h
      cases s with
      | nil => rw [matchToks] at h; exact absurd h (by simp)
      | cons d s2 =>
        rw [matchToks] at h
        by_cases hld : litMatch c d = true
        · rw [if_pos hld] at h
          exact MatchSpec.lit c d toks s2 res.params res.query hld (ih s2 res h)
        · rw [if_neg (by simpa using hld)] at h
          simp at h
    | param n =>
      intro s res h
      rw [matchToks] at h
      obtain ⟨len, r, h1, h2, h3, h4⟩ := tryLens_some h
      have h3 : matchToks toks (s.drop len) = some r := h3
      have hspec := ih _ r h3
      have hwhile : (s.takeWhile allowedChar).length ≤ s.length :=
        (List.takeWhile_prefix allowedChar).length_le
      have hvall : (s.take len).all allowedChar = true := all_take_of_le_takeWhile h2
      have hvne : s.take len ≠ [] := take_ne_nil_of_one_le h1 (Nat.le_trans h2 hwhile)
      have hcons := MatchSpec.param n (s.take len) toks (s.drop len) r.params r.query
        hvne hvall hspec
      rw [List.take_append_drop] at hcons
      subst h4
      exact hcons

theorem MatchSpec_names {toks : List RouteTok} {s : Str} {ps : List (Str × Str)}
    {q : Option Str} (h : MatchSpec toks s ps q) : ps.map Prod.fst = paramNames toks := by
  induction h with
  | nil => rfl
  | tail rest hr => rfl
  | lit c d toks s ps q hc h ih => simpa [paramNames, List.filterMap_cons] using ih
  | param n v toks s ps q hne hall h ih =>
    simpa [paramNames, List.filterMap_cons] using ih

theorem MatchSpec_values {toks : List RouteTok} {s : Str} {ps : List (Str × Str)}
    {q : Option Str} (h : MatchSpec toks s ps q) :
    ∀ p ∈ ps, p.2 ≠ [] ∧ p.2.all allowedChar = true := by
  induction h with
  | nil => intro p hp; simp at hp
  | tail rest hr => intro p hp; simp at hp
  | lit c d toks s ps q hc h ih => exact ih
  | param n v toks s ps q hne hall h ih =>
    intro p hp
    rcases List.mem_cons.mp hp with hp | hp
    · subst hp; exact ⟨hne, hall⟩
    · exact ih p hp

/-- Claim C2, amended: for every compiled template whose literal
characters are all modelled exactly (no regex metacharacters, so the
interpolated source is one single doubly anchored alternative), every
successful match decomposes the whole path — anchored at its first
and last character — per the specification relation: one non-empty
run of allowed characters (lowercase letters, digits, hyphen,
underscore) per named segment and an optional question-mark query
tail; consequently the captures carry exactly the declared parameter
names, and a path that leaves a segment empty or forces a character
outside the allowed set into a segment capture can never match.  The
unrestricted claim is false: a vertical-bar literal splits the
compiled source into alternatives of which only the first is
start-anchored and only the last end-anchored (see the
counterexample). -/
theorem matchToks_sound (toks : List RouteTok) (s : Str) (res : MatchResult)
    (htame : tame toks = true) (h : matchToks toks s = some res) :
    MatchSpec toks s res.params res.query ∧
    res.params.map Prod.fst = paramNames toks ∧
    ∀ p ∈ res.params, p.2 ≠ [] ∧ p.2.all allowedChar = true := by
  have hs := matchToks_spec toks s res h
  exact ⟨hs, MatchSpec_names hs, MatchSpec_values hs⟩

/-- Witness for claim C2 at the template slash-users-colon-id and the
path slash-users-abc. -/
theorem matchToks_sound_witness :
    (tame (tokenize "/users/:id".data) = true ∧
     matchToks (tokenize "/users/:id".data) "/users/abc".data =
       some ⟨[("id".data, "abc".data)], none⟩) ∧
    (MatchSpec (tokenize "/users/:id".data) "/users/abc".data
       (MatchResult.mk [("id".data, "abc".data)] none).params
       (MatchResult.mk [("id".data, "abc".data)] none).query ∧
     (MatchResult.mk [("id".data, "abc".data)] none).params.map Prod.fst =
       paramNames (tokenize "/users/:id".data) ∧
     ∀ p ∈ (MatchResult.mk [("id".data, "abc".data)] none).params,
       p.2 ≠ [] ∧ p.2.all allowedChar = true) :=
  ⟨⟨by decide, by decide⟩, matchToks_sound _ _ _ (by decide) (by decide)⟩

/-- Claim C2, counterexample: the template slash-colon-id-bar-x
compiles (its two group names, id and query, are distinct), yet its
vertical bar becomes top-level regex alternation in the unescaped
interpolated source — only the left alternative keeps the start
anchor and only the right one carries the query group and the end
anchor.  Matching the path z-x therefore succeeds via the right
alternative with an empty capture list (the required segment id is
absent) and with the match starting at index 1 and covering only x:
neither start- nor end-anchored on the whole path, refuting the
claim as stated. -/
theorem execCompiled_unanchored_counterexample :
    buildRoutePath "/:id|x" = Except.ok (tokenize "/:id|x".data) ∧
    "id".data ∈ paramNames (tokenize "/:id|x".data) ∧
    execCompiled (tokenize "/:id|x".data) "zx".data =
      some ⟨1, [], none, 1, "x".data⟩ ∧
    (1 : Nat) ≠ 0 ∧ "x".data ≠ "zx".data :=
  ⟨by rfl, by decide, by decide, by decide, by decide⟩

/-! Completeness of the matcher on delimited templates. -/

theorem delimited_tail_lit {c : Char} {toks : List RouteTok}
    (h : delimited (RouteTok.lit c :: toks) = true) : delimited toks = true := by
  simpa [delimited] using h

theorem delimited_param {n : Str} {toks : List RouteTok}
    (h : delimited (RouteTok.param n :: toks) = true) :
    delimited toks = true ∧
    (toks = [] ∨ ∃ c toks2, toks = RouteTok.lit c :: toks2 ∧ allowedChar c = false) := by
  cases toks with
  | nil => exact ⟨by decide, Or.inl rfl⟩
  | cons t toks2 =>
    cases t with
    | lit c =>
      rw [delimited] at h
      rw [Bool.and_eq_true] at h
      exact ⟨h.2, Or.inr ⟨c, toks2, rfl, by simpa using h.1⟩⟩
    | param m =>
      rw [delimited] at h
      simp at h

theorem matchToks_instantiate : ∀ (toks : List RouteTok) (vals : List Str),
    delimited toks = true →
    vals.length = (paramNames toks).length →
    (∀ v ∈ vals, v ≠ [] ∧ v.all allowedChar = true) →
    matchToks toks (instantiate toks vals) = some ⟨(paramNames toks).zip vals, none⟩ := by
  intro toks
  induction toks with
  | nil =>
    intro vals hdel hlen hvals
    have hv : vals = [] := List.length_eq_zero.mp (by simpa [paramNames] using hlen)
    subst hv
    rfl
  | cons t toks ih =>
    cases t with
    | lit c =>
      intro vals hdel hlen hvals
      have hdel2 := delimited_tail_lit hdel
      rw [show instantiate (RouteTok.lit c :: toks) vals = c :: instantiate toks vals from rfl]
      rw [matchToks]
      rw [if_pos (litMatch_self c)]
      have hrec := ih vals hdel2 (by simpa [paramNames, List.filterMap_cons] using hlen) hvals
      simpa [paramNames, List.filterMap_cons] using hrec
    | param n =>
      intro vals hdel hlen hvals
      obtain ⟨hdel2, hshape⟩ := delimited_param hdel
      have hlen' : vals.length = (paramNames toks).length + 1 := by
        simpa [paramNames, List.filterMap_cons] using hlen
      cases vals with
      | nil => simp at hlen'
      | cons v vals2 =>
        obtain ⟨hvne, hvall⟩ := hvals v (List.mem_cons_self v vals2)
        have hvals2 : ∀ w ∈ vals2, w ≠ [] ∧ w.all allowedChar = true :=
          fun w hw => hvals w (List.mem_cons_of_mem v hw)
        have hlen2 : vals2.length = (paramNames toks).length := by simpa using hlen'
        rw [show instantiate (RouteTok.param n :: toks) (v :: vals2) =
          v ++ instantiate toks vals2 from rfl]
        rw [matchToks]
        have hvp : ∀ a ∈ v, allowedChar a = true := by
          rw [List.all_eq_true] at hvall; exact hvall
        have htw0 : (instantiate toks vals2).takeWhile allowedChar = [] := by
          rcases hshape with h0 | ⟨d, toks2, heq, hd⟩
          · subst h0
            have : vals2 = [] := List.length_eq_zero.mp (by simpa [paramNames] using hlen2)
            subst this
            rfl
          · subst heq
            rw [show instantiate (RouteTok.lit d :: toks2) vals2 =
              d :: instantiate toks2 vals2 from rfl]
            rw [List.takeWhile_cons_of_neg]
            simp [hd]
        have htw : ((v ++ instantiate toks vals2).takeWhile allowedChar).length = v.length := by
          rw [List.takeWhile_append_of_pos hvp, htw0]
          simp
        rw [htw]
        obtain ⟨k, hk⟩ : ∃ k, v.length = k + 1 :=
          Nat.exists_eq_succ_of_ne_zero (by simpa [List.length_eq_zero] using hvne)
        rw [hk, tryLens]
        have hdrop : (v ++ instantiate toks vals2).drop (k + 1) = instantiate toks vals2 := by
          rw [← hk]; exact List.drop_left v _
        have htake : (v ++ instantiate toks vals2).take (k + 1) = v := by
          rw [← hk]; exact List.take_left v _
        have hrec := ih vals2 hdel2 hlen2 hvals2
        simp only [hdrop, hrec, htake]
        simp [paramNames, List.filterMap_cons]

/-- Claim C1, amended: for a template that compiles (distinct names),
whose tokens are all modelled exactly (no regex metacharacter
literals), and in which every named segment is followed by the end of
the template or by a literal outside the allowed value class — in
particular every ordinary slash-separated template — substituting any
non-empty allowed-character values at the named segments and matching
the resulting path succeeds and yields exactly the N distinct
parameter names, each bound to its substituted string, with no query
capture.  Without the delimitation condition the property fails: the
greedy engine can shift characters between adjacent segments (see the
counterexample). -/
theorem buildRoutePath_instantiate (t : String) (toks : List RouteTok) (vals : List Str)
    (hok : buildRoutePath t = Except.ok toks)
    (htame : tame toks = true)
    (hdel : delimited toks = true)
    (hlen : vals.length = (paramNames toks).length)
    (hvals : ∀ v ∈ vals, v ≠ [] ∧ v.all allowedChar = true) :
    (paramNames toks).Nodup ∧
    matchToks toks (instantiate toks vals) = some ⟨(paramNames toks).zip vals, none⟩ := by
  constructor
  · simp only [buildRoutePath] at hok
    split at hok
    case isTrue hnd =>
      injection hok with h2
      subst h2
      exact hnd.of_append_left
    case isFalse hnd => exact absurd hok (by simp)
  · exact matchToks_instantiate toks vals hdel hlen hvals

/-- Claim C1, counterexample: the template slash-colon-a-colon-b has
two distinct named segments; substituting x for a and xy for b gives
the path slash-x-x-y, yet matching binds a to xx and b to y — the
match succeeds with the right keys but not the substituted values,
because the greedy first group absorbs a character of the second. -/
theorem buildRoutePath_adjacent_counterexample :
    buildRoutePath "/:a:b" =
      Except.ok [RouteTok.lit '/', RouteTok.param "a".data, RouteTok.param "b".data] ∧
    instantiate [RouteTok.lit '/', RouteTok.param "a".data, RouteTok.param "b".data]
      ["x".data, "xy".data] = "/xxy".data ∧
    matchToks [RouteTok.lit '/', RouteTok.param "a".data, RouteTok.param "b".data]
      "/xxy".data = some ⟨[("a".data, "xx".data), ("b".data, "y".data)], none⟩ ∧
    ("xx".data : Str) ≠ "x".data :=
  ⟨by rfl, by decide, by decide, by decide⟩

/-- Witness for claim C1 at the template slash-users-colon-id with
the substituted value one-two-three. -/
theorem buildRoutePath_instantiate_witness :
    (buildRoutePath "/users/:id" = Except.ok (tokenize "/users/:id".data) ∧
     tame (tokenize "/users/:id".data) = true ∧
     delimited (tokenize "/users/:id".data) = true ∧
     (["123".data] : List Str).length = (paramNames (tokenize "/users/:id".data)).length ∧
     (∀ v ∈ (["123".data] : List Str), v ≠ [] ∧ v.all allowedChar = true)) ∧
    ((paramNames (tokenize "/users/:id".data)).Nodup ∧
     matchToks (tokenize "/users/:id".data)
       (instantiate (tokenize "/users/:id".data) ["123".data]) =
       some ⟨(paramNames (tokenize "/users/:id".data)).zip ["123".data], none⟩) :=
  ⟨⟨by rfl, by decide, by decide, by decide, by decide⟩,
   buildRoutePath_instantiate "/users/:id" _ ["123".data] (by rfl) (by decide) (by decide)
     (by decide) (by decide)⟩

theorem matchToks_literal_iff_aux : ∀ (toks : List RouteTok) (s : Str),
    paramNames toks = [] →
    (∀ c, RouteTok.lit c ∈ toks → c ≠ '.') →
    ((matchToks toks s).isSome = true ↔
      s = litsOf toks ∨
      ∃ tail, tail.all (fun d => !isLineTerm d) = true ∧ s = litsOf toks ++ '?' :: tail) := by
  intro toks
  induction toks with
  | nil =>
    intro s hnp hdot
    rw [matchToks]
    cases s with
    | nil => simp [matchTail, litsOf]
    | cons c s2 =>
      rw [matchTail]
      by_cases hq : c = '?'
      · subst hq
        by_cases hall : (s2.all fun d => !isLineTerm d) = true
        · rw [if_pos rfl, if_pos hall]
          simp only [Option.map_some', Option.isSome_some, litsOf, List.filterMap_nil,
            List.nil_append]
          constructor
          · intro _
            exact Or.inr ⟨s2, hall, rfl⟩
          · intro _; trivial
        · rw [if_pos rfl, if_neg hall]
          simp only [Option.map_none', Option.isSome_none, litsOf, List.filterMap_nil,
            List.nil_append]
          constructor
          · intro h; exact absurd h (by simp)
          · rintro (h | ⟨tail, htail, heq⟩)
            · exact absurd h (by simp)
            · have : s2 = tail := by
                injection heq
              exact absurd (this ▸ htail) hall
      · rw [if_neg hq]
        simp only [Option.map_none', Option.isSome_none, litsOf, List.filterMap_nil,
          List.nil_append]
        constructor
        · intro h; exact absurd h (by simp)
        · rintro (h | ⟨tail, htail, heq⟩)
          · exact absurd h (by simp)
          · have : c = '?' := by injection heq
            exact absurd this hq
  | cons t toks ih =>
    cases t with
    | param n =>
      intro s hnp hdot
      simp [paramNames, List.filterMap_cons] at hnp
    | lit c =>
      intro s hnp hdot
      have hnp2 : paramNames toks = [] := by
        simpa [paramNames, List.filterMap_cons] using hnp
      have hdot2 : ∀ d, RouteTok.lit d ∈ toks → d ≠ '.' :=
        fun d hd => hdot d (List.mem_cons_of_mem _ hd)
      have hc : c ≠ '.' := hdot c (List.mem_cons_self _ _)
      have hlits : litsOf (RouteTok.lit c :: toks) = c :: litsOf toks := by
        simp [litsOf, List.filterMap_cons]
      cases s with
      | nil =>
        rw [matchToks, hlits]
        constructor
        · intro h; exact absurd h (by simp)
        · rintro (h | ⟨tail, htail, heq⟩)
          · exact absurd h (by simp)
          · exact absurd heq (by simp)
      | cons d s2 =>
        rw [matchToks, hlits]
        by_cases hcd : litMatch c d = true
        · have hcd2 : c = d := by
            unfold litMatch at hcd
            rw [if_neg hc] at hcd
            simpa using hcd
          subst hcd2
          rw [if_pos hcd]
          rw [ih s2 hnp2 hdot2]
          constructor
          · rintro (h | ⟨tail, htail, heq⟩)
            · exact Or.inl (by rw [h])
            · exact Or.inr ⟨tail, htail, by rw [heq, List.cons_append]⟩
          · rintro (h | ⟨tail, htail, heq⟩)
            · injection h with h1 h2
              exact Or.inl h2
            · rw [List.cons_append] at heq
              injection heq with h1 h2
              exact Or.inr ⟨tail, htail, h2⟩
        · rw [if_neg hcd]
          have hne : c ≠ d := fun he => hcd (he ▸ litMatch_self c)
          constructor
          · intro h; exact absurd h (by simp)
          · rintro (h | ⟨tail, htail, heq⟩)
            · injection h with h1 h2
              exact absurd h1.symm hne
            · rw [List.cons_append] at heq
              injection heq with h1 h2
              exact absurd h1.symm hne

/-- Claim C8, amended: for a compiled template with zero named
segments, no dot literal, and only exactly-modelled literal
characters, a path matches the compiled pattern if and only if it is
exactly the literal template text, or that text followed by a
question mark and line-terminator-free query text.  The claim's
unrestricted form fails on templates holding a dot (the
counterexample), and query text may not span line terminators. -/
theorem buildRoutePath_literal_iff (t : String) (toks : List RouteTok) (s : Str)
    (hok : buildRoutePath t = Except.ok toks)
    (hnp : paramNames toks = [])
    (htame : tame toks = true)
    (hdot : '.' ∉ litsOf toks) :
    (matchToks toks s).isSome = true ↔
      s = litsOf toks ∨
      ∃ tail, tail.all (fun d => !isLineTerm d) = true ∧ s = litsOf toks ++ '?' :: tail := by
  refine matchToks_literal_iff_aux toks s hnp ?_
  intro c hcmem he
  subst he
  refine hdot ?_
  rw [litsOf, List.mem_filterMap]
  exact ⟨RouteTok.lit '.', hcmem, rfl⟩

/-- Claim C8, counterexample: the zero-parameter template slash-a-dot-b
compiles to a pattern whose dot is a regex wildcard, so the
non-literal query-free path slash-a-x-b matches; and a literal path
followed by a question mark and a newline in the query text does not
match, although the claim admits arbitrary query text. -/
theorem buildRoutePath_dot_counterexample :
    buildRoutePath "/a.b" = Except.ok (tokenize "/a.b".data) ∧
    paramNames (tokenize "/a.b".data) = [] ∧
    (matchToks (tokenize "/a.b".data) "/axb".data).isSome = true ∧
    "/axb".data ≠ litsOf (tokenize "/a.b".data) ∧
    '?' ∉ ("/axb".data : Str) ∧
    (matchToks (tokenize "/q".data) "/q?x\n".data).isSome = false :=
  ⟨by rfl, by decide, by decide, by decide, by decide, by decide⟩

/-- Witness for claim C8 at the template slash-users. -/
theorem buildRoutePath_literal_iff_witness :
    (buildRoutePath "/users" = Except.ok (tokenize "/users".data) ∧
     paramNames (tokenize "/users".data) = [] ∧
     tame (tokenize "/users".data) = true ∧
     '.' ∉ litsOf (tokenize "/users".data)) ∧
    ((matchToks (tokenize "/users".data) "/users?a=1".data).isSome = true ↔
      "/users?a=1".data = litsOf (tokenize "/users".data) ∨
      ∃ tail, tail.all (fun d => !isLineTerm d) = true ∧
        "/users?a=1".data = litsOf (tokenize "/users".data) ++ '?' :: tail) :=
  ⟨⟨by rfl, by decide, by decide, by decide⟩,
   buildRoutePath_literal_iff "/users" _ "/users?a=1".data (by rfl) (by decide) (by decide)
     (by decide)⟩
